import Mathlib

/-
Verification of the zlog scoped-logging library.

The repository has two near-duplicate variants of the same design:
  * the Controller variant (with lockable scope levels, split output routing,
    level words taken from the message's level via the enum reverse mapping), and
  * the Master variant (no locking, every write to stdout, level word taken
    from the scope's current threshold via a level-to-string table).
Both are embedded below; machine state (the registry's insertion-ordered map
and each scope's mutable fields) is passed explicitly.
-/

namespace Zlog

/-- Log levels, ordered debug(0) < info(1) < warn(2) < err(3) < none(4). -/
inductive Level where
  | debug
  | info
  | warn
  | err
  | none
deriving DecidableEq, Repr

/-- Numeric value of a level, as in the source enum. -/
def Level.toNat : Level → Nat
  | .debug => 0
  | .info => 1
  | .warn => 2
  | .err => 3
  | .none => 4

instance : LT Level := ⟨fun a b => a.toNat < b.toNat⟩

instance : LE Level := ⟨fun a b => a.toNat ≤ b.toNat⟩

instance (a b : Level) : Decidable (a < b) :=
  inferInstanceAs (Decidable (a.toNat < b.toNat))

instance (a b : Level) : Decidable (a ≤ b) :=
  inferInstanceAs (Decidable (a.toNat ≤ b.toNat))

theorem Level.lt_iff {a b : Level} : a < b ↔ a.toNat < b.toNat := Iff.rfl

theorem Level.le_iff {a b : Level} : a ≤ b ↔ a.toNat ≤ b.toNat := Iff.rfl

/-- The reverse enum mapping: the member name of a level, as produced by the
Controller variant's template (the error level prints as "err"). -/
def Level.enumName : Level → String
  | .debug => "debug"
  | .info => "info"
  | .warn => "warn"
  | .err => "err"
  | .none => "none"

/-- An identity key (a JS symbol): compared by identity (the `id` field),
optionally carrying a description string. -/
structure Key where
  id : Nat
  description : Option String
deriving DecidableEq, Repr

/-- The two output streams an emission can target. -/
inductive Fd where
  | stdout
  | stderr
deriving DecidableEq, Repr

/-- One synchronous write: the target stream and the bytes written. -/
structure Write where
  stream : Fd
  data : String
deriving DecidableEq, Repr

/-- A scope of the Controller variant: name, lock latch and threshold. -/
structure Scope where
  symbol : Key
  name : String
  locked : Bool
  level : Level
deriving DecidableEq, Repr

/-- Scope constructor: `this.name = symbol.description ?? fallback`. -/
def Scope.new (symbol : Key) (level : Level) (fallback : String) : Scope :=
  { symbol := symbol, name := symbol.description.getD fallback,
    locked := false, level := level }

/-- The `locked` setter: `if (this.locked) return; this.#locked = value;`. -/
def Scope.setLocked (s : Scope) (value : Bool) : Scope :=
  if s.locked then s else { s with locked := value }

/-- The `level` setter: `if (this.locked) return; this.#level = value;`. -/
def Scope.setLevel (s : Scope) (value : Level) : Scope :=
  if s.locked then s else { s with level := value }

/-- `logFn`: suppress iff `this.level > level`; otherwise format
`levelName(name): message\n` and write it, info to stdout, the rest to
stderr. The scope itself is returned unchanged (the method assigns nothing). -/
def Scope.logFn (s : Scope) (message : String) (level : Level) :
    Scope × Option Write :=
  if level < s.level then (s, Option.none)
  else (s, Option.some
    { stream := if level = Level.info then Fd.stdout else Fd.stderr,
      data := level.enumName ++ "(" ++ s.name ++ "): " ++ message ++ "\n" })

/-- The debug emission method. -/
def Scope.debug (s : Scope) (message : String) : Scope × Option Write :=
  s.logFn message Level.debug

/-- The info emission method. -/
def Scope.info (s : Scope) (message : String) : Scope × Option Write :=
  s.logFn message Level.info

/-- The warn emission method. -/
def Scope.warn (s : Scope) (message : String) : Scope × Option Write :=
  s.logFn message Level.warn

/-- The err emission method. -/
def Scope.err (s : Scope) (message : String) : Scope × Option Write :=
  s.logFn message Level.err

/-- Lookup in an insertion-ordered association list, as `Map.get`. -/
def findEntry {α : Type} : List (Key × α) → Key → Option α
  | [], _ => Option.none
  | (k, s) :: rest, key => if k = key then Option.some s else findEntry rest key

/-- In-place mutation of the scope object stored under a key: the entry keeps
its position, every other entry is untouched. -/
def updateEntry {α : Type} : List (Key × α) → Key → α → List (Key × α)
  | [], _, _ => []
  | (k, s) :: rest, key, s2 =>
    if k = key then (k, s2) :: rest else (k, s) :: updateEntry rest key s2

/-- The Controller: default level plus the insertion-ordered scope registry. -/
structure Controller where
  defaultLevel : Level
  scopes : List (Key × Scope)
deriving DecidableEq, Repr

/-- `new Controller()` with the argument omitted. -/
def Controller.new : Controller :=
  { defaultLevel := Level.info, scopes := [] }

/-- `Controller.scope(symbol, level)`: return the existing scope, or create
one whose name falls back to the current registry size, stringified. -/
def Controller.scope (c : Controller) (key : Key) (level : Level) :
    Scope × Controller :=
  match findEntry c.scopes key with
  | Option.some s => (s, c)
  | Option.none =>
    let s := Scope.new key level (toString c.scopes.length)
    (s, { c with scopes := c.scopes ++ [(key, s)] })

/-- `Controller.scope(symbol)` with the level argument omitted. -/
def Controller.scopeDefault (c : Controller) (key : Key) : Scope × Controller :=
  c.scope key c.defaultLevel

/-- `Controller.set(symbol, level)`: resolve (creating if necessary), then
assign through the scope's guarded level setter. -/
def Controller.set (c : Controller) (key : Key) (level : Level) :
    Scope × Controller :=
  match findEntry c.scopes key with
  | Option.some s =>
    let s2 := s.setLevel level
    (s2, { c with scopes := updateEntry c.scopes key s2 })
  | Option.none =>
    let p := c.scope key level
    let s2 := p.1.setLevel level
    (s2, { p.2 with scopes := updateEntry p.2.scopes key s2 })

/-- `Controller.lock(symbol)`: re-assign the current (or default) level via
`set`, then latch `locked = true` through the guarded setter. -/
def Controller.lock (c : Controller) (key : Key) : Controller :=
  let lvl := match findEntry c.scopes key with
             | Option.some s => s.level
             | Option.none => c.defaultLevel
  let p := c.set key lvl
  { p.2 with scopes := updateEntry p.2.scopes key (p.1.setLocked true) }

/-- The Master variant's level-to-string table (`err` prints as "error"). -/
def levelStr : Level → String
  | .debug => "debug"
  | .info => "info"
  | .warn => "warn"
  | .err => "error"
  | .none => "nolog"

/-- A scope of the Master variant: no lock, a public mutable level, and the
name fallback is the constant "unknown". -/
structure MScope where
  sym : Key
  name : String
  level : Level
deriving DecidableEq, Repr

/-- Master-variant scope constructor: `this.name = sym.description ?? "unknown"`. -/
def MScope.new (sym : Key) (level : Level) : MScope :=
  { sym := sym, name := sym.description.getD "unknown", level := level }

/-- The Master variant's `#fmt`: the level word comes from `this.level`,
the scope's current threshold. -/
def MScope.fmt (s : MScope) (message : String) : String :=
  levelStr s.level ++ "(" ++ s.name ++ "): " ++ message ++ "\n"

/-- The Master variant's `#log`: same suppression rule, but every
non-suppressed line goes to stdout. -/
def MScope.log (s : MScope) (message : String) (level : Level) :
    MScope × Option Write :=
  if level < s.level then (s, Option.none)
  else (s, Option.some { stream := Fd.stdout, data := s.fmt message })

/-- Master-variant debug emission. -/
def MScope.debug (s : MScope) (message : String) : MScope × Option Write :=
  s.log message Level.debug

/-- Master-variant info emission. -/
def MScope.info (s : MScope) (message : String) : MScope × Option Write :=
  s.log message Level.info

/-- Master-variant warn emission. -/
def MScope.warn (s : MScope) (message : String) : MScope × Option Write :=
  s.log message Level.warn

/-- Master-variant err emission. -/
def MScope.err (s : MScope) (message : String) : MScope × Option Write :=
  s.log message Level.err

/-- The Master: default level plus the scope registry. -/
structure Master where
  defaultLevel : Level
  scopes : List (Key × MScope)
deriving DecidableEq, Repr

/-- `new Master()` with the argument omitted. -/
def Master.new : Master :=
  { defaultLevel := Level.info, scopes := [] }

/-- `Master.scope(sym, level)`: return the existing scope or create one. -/
def Master.scope (m : Master) (sym : Key) (level : Level) : MScope × Master :=
  match findEntry m.scopes sym with
  | Option.some s => (s, m)
  | Option.none =>
    let s := MScope.new sym level
    (s, { m with scopes := m.scopes ++ [(sym, s)] })

/-- `Master.set(sym, level = this.defaultLevel)`: the level argument is
optional (`Option.none` models omitting it); assignment is unconditional
since Master scopes have no lock. -/
def Master.set (m : Master) (sym : Key) (levelArg : Option Level) :
    MScope × Master :=
  let level := levelArg.getD m.defaultLevel
  match findEntry m.scopes sym with
  | Option.some s =>
    let s2 := { s with level := level }
    (s2, { m with scopes := updateEntry m.scopes sym s2 })
  | Option.none =>
    let p := m.scope sym level
    let s2 := { p.1 with level := level }
    (s2, { p.2 with scopes := updateEntry p.2.scopes sym s2 })

/-- The observable operations a client can perform on a Controller after a
lock: registry calls, plus direct assignments through a scope reference's
setters. -/
inductive Op where
  | scope (k : Key) (lvl : Option Level)
  | set (k : Key) (lvl : Level)
  | lock (k : Key)
  | assignLevel (k : Key) (lvl : Level)
  | assignLocked (k : Key) (b : Bool)

/-- Run one operation against the Controller state. -/
def applyOp (c : Controller) : Op → Controller
  | .scope k lvlOpt => (c.scope k (lvlOpt.getD c.defaultLevel)).2
  | .set k lvl => (c.set k lvl).2
  | .lock k => c.lock k
  | .assignLevel k lvl =>
    match findEntry c.scopes k with
    | Option.some s => { c with scopes := updateEntry c.scopes k (s.setLevel lvl) }
    | Option.none => c
  | .assignLocked k b =>
    match findEntry c.scopes k with
    | Option.some s => { c with scopes := updateEntry c.scopes k (s.setLocked b) }
    | Option.none => c

/-- Run a sequence of operations, left to right. -/
def applyOps (c : Controller) : List Op → Controller
  | [] => c
  | op :: rest => applyOps (applyOp c op) rest

/-- The scope at `k` is registered, locked, and frozen at level `v`. -/
def frozenAt (c : Controller) (k : Key) (v : Level) : Prop :=
  ∃ s, findEntry c.scopes k = Option.some s ∧ s.locked = true ∧ s.level = v

theorem findEntry_append_some {α : Type} {l : List (Key × α)} {k : Key} {s : α}
    (h : findEntry l k = Option.some s) (l2 : List (Key × α)) :
    findEntry (l ++ l2) k = Option.some s := by
  induction l with
  | nil => simp [findEntry] at h
  | cons hd tl ih =>
    obtain ⟨k1, s1⟩ := hd
    by_cases hk : k1 = k
    · simpa [findEntry, hk] using h
    · simp only [findEntry, if_neg hk, List.cons_append] at h ⊢
      exact ih h

theorem findEntry_append_single_self {α : Type} {l : List (Key × α)} {k : Key}
    (h : findEntry l k = Option.none) (s : α) :
    findEntry (l ++ [(k, s)]) k = Option.some s := by
  induction l with
  | nil => simp [findEntry]
  | cons hd tl ih =>
    obtain ⟨k1, s1⟩ := hd
    by_cases hk : k1 = k
    · simp [findEntry, hk] at h
    · simp only [findEntry, if_neg hk, List.cons_append] at h ⊢
      exact ih h

theorem findEntry_append_single_ne {α : Type} (l : List (Key × α)) {k k2 : Key}
    (h : k ≠ k2) (s : α) :
    findEntry (l ++ [(k2, s)]) k = findEntry l k := by
  have h2 : ¬ k2 = k := fun hk => h hk.symm
  induction l with
  | nil => simp [findEntry, h2]
  | cons hd tl ih =>
    obtain ⟨k1, s1⟩ := hd
    by_cases hk : k1 = k
    · simp [findEntry, hk]
    · simp only [findEntry, if_neg hk, List.cons_append]
      exact ih

theorem findEntry_update_some {α : Type} {l : List (Key × α)} {k : Key} {s0 : α}
    (h : findEntry l k = Option.some s0) (s : α) :
    findEntry (updateEntry l k s) k = Option.some s := by
  induction l with
  | nil => simp [findEntry] at h
  | cons hd tl ih =>
    obtain ⟨k1, s1⟩ := hd
    by_cases hk : k1 = k
    · simp [updateEntry, findEntry, hk]
    · simp only [findEntry, if_neg hk] at h
      simp only [updateEntry, if_neg hk, findEntry, if_neg hk]
      exact ih h

theorem findEntry_update_ne {α : Type} (l : List (Key × α)) {k k2 : Key}
    (h : k ≠ k2) (s : α) :
    findEntry (updateEntry l k2 s) k = findEntry l k := by
  induction l with
  | nil => simp [updateEntry]
  | cons hd tl ih =>
    obtain ⟨k1, s1⟩ := hd
    by_cases hk : k1 = k2
    · have hk1 : ¬ k1 = k := by
        intro hkk
        exact h (hkk ▸ hk)
      simp only [updateEntry, if_pos hk, findEntry, if_neg hk1]
    · simp only [updateEntry, if_neg hk, findEntry]
      by_cases hk1 : k1 = k
      · simp [hk1]
      · simp only [if_neg hk1]
        exact ih

theorem scope_found {c : Controller} {k : Key} {s : Scope}
    (h : findEntry c.scopes k = Option.some s) (lvl : Level) :
    c.scope k lvl = (s, c) := by
  simp [Controller.scope, h]

theorem scope_frame_ne (c : Controller) {k k2 : Key} (h : k ≠ k2) (lvl : Level) :
    findEntry ((c.scope k2 lvl).2).scopes k = findEntry c.scopes k := by
  cases hf : findEntry c.scopes k2 with
  | some s => simp [Controller.scope, hf]
  | none => simp [Controller.scope, hf, findEntry_append_single_ne _ h]

theorem set_found {c : Controller} {k : Key} {s : Scope}
    (h : findEntry c.scopes k = Option.some s) (lvl : Level) :
    c.set k lvl =
      (s.setLevel lvl, { c with scopes := updateEntry c.scopes k (s.setLevel lvl) }) := by
  simp [Controller.set, h]

theorem set_frame_ne (c : Controller) {k k2 : Key} (h : k ≠ k2) (lvl : Level) :
    findEntry ((c.set k2 lvl).2).scopes k = findEntry c.scopes k := by
  cases hf : findEntry c.scopes k2 with
  | some s => simp [Controller.set, hf, findEntry_update_ne _ h]
  | none =>
    simp [Controller.set, Controller.scope, hf, findEntry_update_ne _ h,
      findEntry_append_single_ne _ h]

theorem lock_frame_ne (c : Controller) {k k2 : Key} (h : k ≠ k2) :
    findEntry (c.lock k2).scopes k = findEntry c.scopes k := by
  simp only [Controller.lock]
  rw [findEntry_update_ne _ h, set_frame_ne _ h]

theorem Scope.setLevel_of_locked {s : Scope} (h : s.locked = true) (lvl : Level) :
    s.setLevel lvl = s := by
  simp [Scope.setLevel, h]

theorem Scope.setLocked_of_locked {s : Scope} (h : s.locked = true) (b : Bool) :
    s.setLocked b = s := by
  simp [Scope.setLocked, h]

theorem Scope.setLevel_self (s : Scope) : s.setLevel s.level = s := by
  unfold Scope.setLevel
  split <;> rfl

theorem Scope.locked_setLocked_true (s : Scope) : (s.setLocked true).locked = true := by
  unfold Scope.setLocked
  split
  · assumption
  · rfl

theorem Scope.level_setLocked (s : Scope) (b : Bool) : (s.setLocked b).level = s.level := by
  unfold Scope.setLocked
  split <;> rfl

/-- After `lock(k)` the registry holds a locked scope at `k` whose level is
the pre-existing one, or the default level if `k` was unknown. -/
theorem lock_registers (c : Controller) (k : Key) :
    ∃ s2, findEntry (c.lock k).scopes k = Option.some s2 ∧ s2.locked = true ∧
      s2.level = (match findEntry c.scopes k with
                  | Option.some s => s.level
                  | Option.none => c.defaultLevel) := by
  cases hf : findEntry c.scopes k with
  | some s =>
    refine ⟨(s.setLevel s.level).setLocked true, ?_, Scope.locked_setLocked_true _, ?_⟩
    · simp only [Controller.lock, hf, set_found hf]
      exact findEntry_update_some (findEntry_update_some hf _) _
    · rw [Scope.level_setLocked, Scope.setLevel_self]
  | none =>
    have hnewlock : (Scope.new k c.defaultLevel (toString c.scopes.length)).locked = false := rfl
    refine ⟨((Scope.new k c.defaultLevel (toString c.scopes.length)).setLevel
        c.defaultLevel).setLocked true, ?_, Scope.locked_setLocked_true _, ?_⟩
    · simp only [Controller.lock, hf, Controller.set, Controller.scope]
      exact findEntry_update_some
        (findEntry_update_some (findEntry_append_single_self hf _) _) _
    · rw [Scope.level_setLocked]
      rfl

theorem frozenAt_applyOp {c : Controller} {k : Key} {v : Level}
    (h : frozenAt c k v) (op : Op) : frozenAt (applyOp c op) k v := by
  obtain ⟨s, hf, hl, hv⟩ := h
  cases op with
  | scope k2 lvlOpt =>
    by_cases hk : k = k2
    · subst hk
      simp only [applyOp, scope_found hf]
      exact ⟨s, hf, hl, hv⟩
    · refine ⟨s, ?_, hl, hv⟩
      simp only [applyOp]
      rw [scope_frame_ne _ hk]
      exact hf
  | set k2 lvl =>
    by_cases hk : k = k2
    · subst hk
      refine ⟨s, ?_, hl, hv⟩
      simp only [applyOp, set_found hf]
      rw [Scope.setLevel_of_locked hl]
      exact findEntry_update_some hf s
    · refine ⟨s, ?_, hl, hv⟩
      simp only [applyOp]
      rw [set_frame_ne _ hk]
      exact hf
  | lock k2 =>
    by_cases hk : k = k2
    · subst hk
      refine ⟨s, ?_, hl, hv⟩
      simp only [applyOp, Controller.lock, hf, set_found hf]
      rw [Scope.setLevel_of_locked hl, Scope.setLocked_of_locked hl]
      exact findEntry_update_some (findEntry_update_some hf s) s
    · refine ⟨s, ?_, hl, hv⟩
      simp only [applyOp]
      rw [lock_frame_ne _ hk]
      exact hf
  | assignLevel k2 lvl =>
    by_cases hk : k = k2
    · subst hk
      refine ⟨s, ?_, hl, hv⟩
      simp only [applyOp, hf]
      rw [Scope.setLevel_of_locked hl]
      exact findEntry_update_some hf s
    · refine ⟨s, ?_, hl, hv⟩
      simp only [applyOp]
      cases hf2 : findEntry c.scopes k2 with
      | some t => simpa [findEntry_update_ne _ hk] using hf
      | none => exact hf
  | assignLocked k2 b =>
    by_cases hk : k = k2
    · subst hk
      refine ⟨s, ?_, hl, hv⟩
      simp only [applyOp, hf]
      rw [Scope.setLocked_of_locked hl]
      exact findEntry_update_some hf s
    · refine ⟨s, ?_, hl, hv⟩
      simp only [applyOp]
      cases hf2 : findEntry c.scopes k2 with
      | some t => simpa [findEntry_update_ne _ hk] using hf
      | none => exact hf

theorem frozenAt_applyOps {c : Controller} {k : Key} {v : Level}
    (h : frozenAt c k v) (ops : List Op) : frozenAt (applyOps c ops) k v := by
  induction ops generalizing c with
  | nil => exact h
  | cons op rest ih => exact ih (frozenAt_applyOp h op)

theorem logFn_fst (s : Scope) (m : String) (lvl : Level) : (s.logFn m lvl).1 = s := by
  unfold Scope.logFn
  split <;> rfl

theorem mlog_fst (t : MScope) (m : String) (lvl : Level) : (t.log m lvl).1 = t := by
  unfold MScope.log
  split <;> rfl

theorem logFn_stream {s : Scope} {m : String} {lvl : Level} {w : Write}
    (hw : (s.logFn m lvl).2 = Option.some w) :
    w.stream = if lvl = Level.info then Fd.stdout else Fd.stderr := by
  unfold Scope.logFn at hw
  split at hw
  · simp at hw
  · simp only [Option.some.injEq] at hw
    rw [← hw]

theorem mlog_stream {t : MScope} {m : String} {lvl : Level} {w : Write}
    (hw : (t.log m lvl).2 = Option.some w) : w.stream = Fd.stdout := by
  unfold MScope.log at hw
  split at hw
  · simp at hw
  · simp only [Option.some.injEq] at hw
    rw [← hw]

theorem present_applyOp {c : Controller} {k : Key}
    (h : ∃ s, findEntry c.scopes k = Option.some s) (op : Op) :
    ∃ s2, findEntry (applyOp c op).scopes k = Option.some s2 := by
  obtain ⟨s, hf⟩ := h
  cases op with
  | scope k2 lvlOpt =>
    by_cases hk : k = k2
    · subst hk
      simp only [applyOp, scope_found hf]
      exact ⟨s, hf⟩
    · refine ⟨s, ?_⟩
      simp only [applyOp]
      rw [scope_frame_ne _ hk]
      exact hf
  | set k2 lvl =>
    by_cases hk : k = k2
    · subst hk
      refine ⟨s.setLevel lvl, ?_⟩
      simp only [applyOp, set_found hf]
      exact findEntry_update_some hf _
    · refine ⟨s, ?_⟩
      simp only [applyOp]
      rw [set_frame_ne _ hk]
      exact hf
  | lock k2 =>
    by_cases hk : k = k2
    · subst hk
      obtain ⟨s2, h2, _, _⟩ := lock_registers c k
      exact ⟨s2, h2⟩
    · refine ⟨s, ?_⟩
      simp only [applyOp]
      rw [lock_frame_ne _ hk]
      exact hf
  | assignLevel k2 lvl =>
    by_cases hk : k = k2
    · subst hk
      refine ⟨s.setLevel lvl, ?_⟩
      simp only [applyOp, hf]
      exact findEntry_update_some hf _
    · refine ⟨s, ?_⟩
      simp only [applyOp]
      cases hf2 : findEntry c.scopes k2 with
      | some t => simpa [findEntry_update_ne _ hk] using hf
      | none => exact hf
  | assignLocked k2 b =>
    by_cases hk : k = k2
    · subst hk
      refine ⟨s.setLocked b, ?_⟩
      simp only [applyOp, hf]
      exact findEntry_update_some hf _
    · refine ⟨s, ?_⟩
      simp only [applyOp]
      cases hf2 : findEntry c.scopes k2 with
      | some t => simpa [findEntry_update_ne _ hk] using hf
      | none => exact hf

/-- C1: in both variants the four emission methods write iff the message
level is at least the scope's threshold (suppress iff the threshold exceeds
the message level), and a threshold of `none` suppresses every concrete-level
emission; a suppressed call yields no write at all. -/
theorem emission_gated_by_threshold (s : Scope) (t : MScope) (m : String) :
    ((s.debug m).2.isSome ↔ s.level ≤ Level.debug)
  ∧ ((s.info m).2.isSome ↔ s.level ≤ Level.info)
  ∧ ((s.warn m).2.isSome ↔ s.level ≤ Level.warn)
  ∧ ((s.err m).2.isSome ↔ s.level ≤ Level.err)
  ∧ (s.level = Level.none →
      (s.debug m).2 = Option.none ∧ (s.info m).2 = Option.none ∧
      (s.warn m).2 = Option.none ∧ (s.err m).2 = Option.none)
  ∧ ((t.debug m).2.isSome ↔ t.level ≤ Level.debug)
  ∧ ((t.info m).2.isSome ↔ t.level ≤ Level.info)
  ∧ ((t.warn m).2.isSome ↔ t.level ≤ Level.warn)
  ∧ ((t.err m).2.isSome ↔ t.level ≤ Level.err)
  ∧ (t.level = Level.none →
      (t.debug m).2 = Option.none ∧ (t.info m).2 = Option.none ∧
      (t.warn m).2 = Option.none ∧ (t.err m).2 = Option.none) := by
  cases hs : s.level <;> cases ht : t.level <;>
    simp [Scope.debug, Scope.info, Scope.warn, Scope.err, Scope.logFn,
      MScope.debug, MScope.info, MScope.warn, MScope.err, MScope.log, hs, ht,
      Level.lt_iff, Level.le_iff, Level.toNat]

/-- C1 witness: in each variant a scope whose threshold is `none` suppresses
an err emission. -/
theorem emission_gated_by_threshold_witness :
    ((({ symbol := { id := 0, description := Option.some "app" }, name := "app",
         locked := false, level := Level.none } : Scope).err "x").2 = Option.none)
  ∧ ((({ sym := { id := 0, description := Option.some "app" }, name := "app",
         level := Level.none } : MScope).err "x").2 = Option.none) :=
  ⟨((emission_gated_by_threshold
      { symbol := { id := 0, description := Option.some "app" }, name := "app",
        locked := false, level := Level.none }
      { sym := { id := 0, description := Option.some "app" }, name := "app",
        level := Level.none } "x").2.2.2.2.1 rfl).2.2.2,
   ((emission_gated_by_threshold
      { symbol := { id := 0, description := Option.some "app" }, name := "app",
        locked := false, level := Level.none }
      { sym := { id := 0, description := Option.some "app" }, name := "app",
        level := Level.none } "x").2.2.2.2.2.2.2.2.2 rfl).2.2.2⟩

/-- C9: each emission method returns its scope unchanged — emission mutates
neither the scope's fields nor (having no access to it) the registry —
whether or not a line is written; shown for both variants. -/
theorem emission_frame (s : Scope) (t : MScope) (m : String) :
    (s.debug m).1 = s ∧ (s.info m).1 = s ∧ (s.warn m).1 = s ∧ (s.err m).1 = s
  ∧ (t.debug m).1 = t ∧ (t.info m).1 = t ∧ (t.warn m).1 = t ∧ (t.err m).1 = t :=
  ⟨logFn_fst s m _, logFn_fst s m _, logFn_fst s m _, logFn_fst s m _,
   mlog_fst t m _, mlog_fst t m _, mlog_fst t m _, mlog_fst t m _⟩

/-- C4: in the Master variant the level word of the emitted line comes from
the scope's current threshold, not from the message's level: a debug-threshold
scope emitting `err "boom"` prints `debug(app): boom`, not `error(app): boom`. -/
theorem master_label_uses_threshold :
    ((MScope.new { id := 0, description := Option.some "app" } Level.debug).err
        "boom").2
      = Option.some { stream := Fd.stdout, data := "debug(app): boom\n" }
  ∧ ("debug(app): boom\n" : String) ≠ "error(app): boom\n" :=
  ⟨rfl, by decide⟩

/-- C5 counterexample: in the Master variant an err-level emission is written
to stdout, not stderr, refuting level-selected routing for the repository at
this input. -/
theorem master_err_writes_stdout :
    ((MScope.new { id := 1, description := Option.some "net" } Level.debug).err
        "boom").2.map Write.stream = Option.some Fd.stdout
  ∧ Fd.stdout ≠ Fd.stderr :=
  ⟨rfl, by decide⟩

/-- C5 amended: in the Controller variant the stream is selected by the
message's level (info to stdout, debug/warn/err to stderr); in the Master
variant every non-suppressed emission goes to stdout. In both variants a call
performs at most one write, exactly one when not suppressed. -/
theorem routing_by_variant (s : Scope) (t : MScope) (m : String) (w : Write) :
    ((s.debug m).2 = Option.some w → w.stream = Fd.stderr)
  ∧ ((s.info m).2 = Option.some w → w.stream = Fd.stdout)
  ∧ ((s.warn m).2 = Option.some w → w.stream = Fd.stderr)
  ∧ ((s.err m).2 = Option.some w → w.stream = Fd.stderr)
  ∧ ((t.debug m).2 = Option.some w → w.stream = Fd.stdout)
  ∧ ((t.info m).2 = Option.some w → w.stream = Fd.stdout)
  ∧ ((t.warn m).2 = Option.some w → w.stream = Fd.stdout)
  ∧ ((t.err m).2 = Option.some w → w.stream = Fd.stdout) := by
  refine ⟨fun hw => ?_, fun hw => ?_, fun hw => ?_, fun hw => ?_,
    fun hw => mlog_stream hw, fun hw => mlog_stream hw,
    fun hw => mlog_stream hw, fun hw => mlog_stream hw⟩ <;>
    simpa using logFn_stream hw

/-- C5 witness: a debug-threshold Controller-variant scope routes info to
stdout. -/
theorem routing_by_variant_witness :
    (Write.mk Fd.stdout "info(app): hi\n").stream = Fd.stdout :=
  (routing_by_variant
      { symbol := { id := 0, description := Option.some "app" }, name := "app",
        locked := false, level := Level.debug }
      (MScope.new { id := 0, description := Option.some "app" } Level.debug)
      "hi" (Write.mk Fd.stdout "info(app): hi\n")).2.1 rfl

/-- C10: in the Master variant `set` with the level omitted defaults to the
Master's `defaultLevel`, so on an existing scope it resets the stored level to
`defaultLevel`. -/
theorem master_set_default_resets (m : Master) (k : Key) (s : MScope)
    (h : findEntry m.scopes k = Option.some s) :
    ((m.set k Option.none).1).level = m.defaultLevel ∧
    findEntry ((m.set k Option.none).2).scopes k =
      Option.some ((m.set k Option.none).1) := by
  simp only [Master.set, Option.getD_none, h]
  exact ⟨trivial, findEntry_update_some h _⟩

/-- C2: once `lock(k)` has run, after any subsequent sequence of operations —
scope/set/lock calls on any key and direct assignments through a scope
reference's level and locked setters, including `locked = false` — the scope
at `k` is still registered, still locked, and its level is unchanged from the
moment of the lock. -/
theorem lock_freezes_forever (c : Controller) (k : Key) (ops : List Op) :
    ∃ s1 s2, findEntry (c.lock k).scopes k = Option.some s1
      ∧ findEntry (applyOps (c.lock k) ops).scopes k = Option.some s2
      ∧ s2.locked = true ∧ s2.level = s1.level := by
  obtain ⟨s1, h1, hl1, _⟩ := lock_registers c k
  obtain ⟨s2, h2, hl2, hv2⟩ := frozenAt_applyOps ⟨s1, h1, hl1, rfl⟩ ops
  exact ⟨s1, s2, h1, h2, hl2, hv2⟩

/-- C3: the registry only grows — a key with an entry still has an entry after
any single operation — and on a registered key `scope` returns the stored
scope and leaves the Controller completely unchanged, for any level argument. -/
theorem registry_monotone_and_scope_idempotent (c : Controller) (op : Op)
    (k : Key) (s : Scope) (lvl : Level)
    (h : findEntry c.scopes k = Option.some s) :
    (∃ s2, findEntry (applyOp c op).scopes k = Option.some s2)
  ∧ c.scope k lvl = (s, c) :=
  ⟨present_applyOp ⟨s, h⟩ op, scope_found h lvl⟩

/-- C3 witness: after registering a scope, locking another key keeps the entry,
and a repeated `scope` call returns the stored scope with no state change. -/
theorem registry_monotone_and_scope_idempotent_witness :
    (∃ s2, findEntry (applyOp
        ((Controller.new.scope { id := 0, description := Option.some "app" }
          Level.warn).2)
        (Op.lock { id := 1, description := Option.none })).scopes
      { id := 0, description := Option.some "app" } = Option.some s2)
  ∧ ((Controller.new.scope { id := 0, description := Option.some "app" }
        Level.warn).2).scope { id := 0, description := Option.some "app" }
        Level.err
      = (Scope.new { id := 0, description := Option.some "app" } Level.warn "0",
         (Controller.new.scope { id := 0, description := Option.some "app" }
           Level.warn).2) :=
  registry_monotone_and_scope_idempotent _ _ _
    (Scope.new { id := 0, description := Option.some "app" } Level.warn "0")
    Level.err rfl

/-- C6: `lock(k)` never changes a pre-existing threshold — afterwards the
scope at `k` is locked and its level is the pre-existing one, or the
Controller's `defaultLevel` when `k` had no scope yet. -/
theorem lock_preserves_threshold (c : Controller) (k : Key) :
    ∃ s2, findEntry (c.lock k).scopes k = Option.some s2 ∧ s2.locked = true ∧
      s2.level = (match findEntry c.scopes k with
                  | Option.some s => s.level
                  | Option.none => c.defaultLevel) :=
  lock_registers c k

/-- C7: a scope created for a key with no description string is named by the
registry's size at creation time, stringified — its creation-order index; the
first scope registered in a fresh Controller is therefore named "0". -/
theorem fallback_name_is_creation_index (c : Controller) (k : Key) (lvl : Level)
    (h1 : k.description = Option.none)
    (h2 : findEntry c.scopes k = Option.none) :
    ((c.scope k lvl).1).name = toString c.scopes.length
  ∧ findEntry ((c.scope k lvl).2).scopes k = Option.some ((c.scope k lvl).1) := by
  constructor
  · simp [Controller.scope, h2, Scope.new, h1]
  · simp only [Controller.scope, h2]
    exact findEntry_append_single_self h2 _

/-- C7 witness: the first description-less scope of a fresh Controller is
named "0". -/
theorem fallback_name_is_creation_index_witness :
    ((Controller.new.scope { id := 7, description := Option.none }
        Level.warn).1).name = "0" := by
  have h := (fallback_name_is_creation_index Controller.new
    { id := 7, description := Option.none } Level.warn rfl rfl).1
  simpa using h

/-- C8: a Controller constructed without an argument has `defaultLevel = info`,
and a freshly created scope's level is the Controller's `defaultLevel` when no
level is passed, or exactly the level explicitly passed to `scope` or `set`. -/
theorem default_level_info_and_fresh_scope_level (c : Controller) (k : Key)
    (lvl : Level) (h : findEntry c.scopes k = Option.none) :
    Controller.new.defaultLevel = Level.info
  ∧ ((c.scopeDefault k).1).level = c.defaultLevel
  ∧ ((c.scope k lvl).1).level = lvl
  ∧ ((c.set k lvl).1).level = lvl := by
  refine ⟨rfl, ?_, ?_, ?_⟩
  · simp [Controller.scopeDefault, Controller.scope, h, Scope.new]
  · simp [Controller.scope, h, Scope.new]
  · simp [Controller.set, Controller.scope, h, Scope.new, Scope.setLevel]

/-- C8 witness: a fresh Controller's first scope with an explicit err level is
created at err. -/
theorem default_level_info_and_fresh_scope_level_witness :
    ((Controller.new.scope { id := 1, description := Option.some "db" }
        Level.err).1).level = Level.err :=
  (default_level_info_and_fresh_scope_level Controller.new
    { id := 1, description := Option.some "db" } Level.err rfl).2.2.1

/-- C10 witness: a scope previously at warn is reset to the default info. -/
theorem master_set_default_resets_witness :
    ((Master.mk Level.info
        [({ id := 0, description := Option.some "app" },
          MScope.new { id := 0, description := Option.some "app" } Level.warn)]).set
      { id := 0, description := Option.some "app" } Option.none).1.level
      = Level.info :=
  (master_set_default_resets
    (Master.mk Level.info
      [({ id := 0, description := Option.some "app" },
        MScope.new { id := 0, description := Option.some "app" } Level.warn)])
    { id := 0, description := Option.some "app" }
    (MScope.new { id := 0, description := Option.some "app" } Level.warn) rfl).1

end Zlog
